import Mathlib

/-!
# A verification of the treeboost document pipeline

A shallow embedding, in Lean 4, of the core of the treeboost repository:

* `server/services/embeddingService.ts` — `EmbeddingService.generateEmbedding`,
  `EmbeddingService.cosineSimilarity`, `EmbeddingService.findSimilarChunks`,
  `DocumentProcessor.chunkText`;
* `server/storage.ts` — the `MemStorage` in-memory store and its operations;
* `server/routes.ts` — the asynchronous ingestion pipelines
  (`processDocumentAsync`, `processUrlAsync`) and the chat-message handler.

Modelling conventions:

* JavaScript strings are modelled as `List Char` (and, for the hash in
  `generateEmbedding`, as `List ℤ` of UTF-16 code units);
* JavaScript numbers are modelled as `ℝ` where the code does real arithmetic
  (similarity scores), as `ℚ` for the hash-derived embedding components, and
  the 32-bit integer steps of the hash (`<<`, `& `) are modelled exactly on ℤ;
* a thrown exception is modelled by `Option`/short-circuiting (`none` = the
  function threw);
* the in-memory store is a record of lists; `Map` iteration order in V8 is
  insertion order, so lists in insertion order are a faithful model;
* external failure points the code guards with `try`/`catch` (text extraction,
  per-chunk embedding creation) are modelled by oracle parameters
  (`Option` result for extraction, `fails : ℕ → Bool` for per-chunk failures).
-/

/-! ## The deterministic vectorizer: `EmbeddingService.generateEmbedding`

The code builds, for each dimension index `i < 1536`, the string
`text + i.toString()`, hashes it with the classic JS 31× rolling hash over
UTF-16 code units using 32-bit integer wrap-around
(`hash = ((hash << 5) - hash) + code; hash = hash & hash`), and pushes
`(hash % 1000) / 1000` (JS `%` truncates toward zero, keeping the sign of the
dividend). -/

/-- JS `ToInt32`: wrap an integer to the signed 32-bit range, as `x & x` and
`x << 5` do in `generateEmbedding`. -/
def toInt32 (x : ℤ) : ℤ :=
  let r := x % 4294967296
  if r < 2147483648 then r else r - 4294967296

/-- One iteration of the hash loop `hash = ((hash << 5) - hash) + c; hash = hash & hash`.
`hash << 5` is itself a 32-bit operation; the subtraction and addition happen
exactly in doubles (all intermediates are below 2^53), and `hash & hash`
re-truncates to 32 bits. -/
def hashStep (h : ℤ) (c : ℤ) : ℤ := toInt32 (toInt32 (h * 32) - h + c)

/-- The full hash of a string given as its list of UTF-16 code units. -/
def jsHash (codes : List ℤ) : ℤ := codes.foldl hashStep 0

/-- JS remainder `a % b`: truncated division, the result keeps the sign of `a`.
(Lean's `%` on ℤ is Euclidean, hence the case split.) -/
def jsRem (a b : ℤ) : ℤ := if 0 ≤ a then a % b else -((-a) % b)

/-- Decimal digits of `n`, least significant first, by fuel-bounded recursion
(so that it reduces in the kernel). -/
def digitsRevAux : ℕ → ℕ → List ℕ
  | 0, _ => []
  | fuel + 1, n => if n < 10 then [n] else n % 10 :: digitsRevAux fuel (n / 10)

def digitsRev (n : ℕ) : List ℕ := digitsRevAux (n + 1) n

/-- The UTF-16 code units of `i.toString()` (decimal, ASCII digits). -/
def reprCodes (i : ℕ) : List ℤ := (digitsRev i).reverse.map (fun d => (48 + d : ℤ))

/-- Component `i` of the embedding of `text`: `(hash % 1000) / 1000` where
`hash` is the 32-bit hash of `text + i.toString()`. -/
def embedComponent (text : List ℤ) (i : ℕ) : ℚ :=
  (jsRem (jsHash (text ++ reprCodes i)) 1000 : ℚ) / 1000

/-- `EmbeddingService.generateEmbedding`: 1536 hash-derived components. The
`try`/`catch` wrapper is dead code — nothing in the loop can throw — so the
model is total. -/
def generateEmbedding (text : List ℤ) : List ℚ :=
  (List.range 1536).map (embedComponent text)

def isTerm (c : Char) : Bool := c = '.' || c = '!' || c = '?'

/-- Split at each terminator character. Runs of terminators produce extra
empty pieces, which the whitespace filter below removes, so this agrees with
the JS split on the regex `[.!?]+` once filtered. -/
def splitOnTerm : List Char → List (List Char)
  | [] => [[]]
  | c :: cs =>
    if isTerm c then [] :: splitOnTerm cs
    else
      match splitOnTerm cs with
      | [] => [[c]]
      | s :: ss => (c :: s) :: ss

/-- The sentence list: pieces whose `trim()` is non-empty, i.e. pieces
containing a non-whitespace character. -/
def sentencesOf (text : List Char) : List (List Char) :=
  (splitOnTerm text).filter (fun s => s.any (fun c => !c.isWhitespace))

/-- JS `String.prototype.trim`: drop leading and trailing whitespace. -/
def trimChars (cs : List Char) : List Char :=
  ((cs.dropWhile Char.isWhitespace).reverse.dropWhile Char.isWhitespace).reverse

/-- The accumulation loop of `chunkText`, including the final
`if (currentChunk.trim().length > 0) chunks.push(currentChunk.trim())`. -/
def chunkLoop (maxSize : ℕ) (current : List Char) : List (List Char) → List (List Char)
  | [] => if 0 < (trimChars current).length then [trimChars current] else []
  | s :: rest =>
    -- `potential = currentChunk + sentence + ". "`, written out at each use
    if (current ++ s ++ ['.', ' ']).length > maxSize ∧ current.length > 0 then
      trimChars current :: chunkLoop maxSize (s ++ ['.', ' ']) rest
    else
      chunkLoop maxSize (current ++ s ++ ['.', ' ']) rest

/-- `DocumentProcessor.chunkText`. -/
def chunkText (text : List Char) (maxChunkSize : ℕ := 6000) : List (List Char) :=
  if (chunkLoop maxChunkSize [] (sentencesOf text)).length > 0 then
    chunkLoop maxChunkSize [] (sentencesOf text)
  else [text.take maxChunkSize]

/-- The `dotProduct` accumulator of the loop in `cosineSimilarity`. -/
noncomputable def dotProduct (a b : List ℝ) : ℝ := (List.zipWith (fun x y => x * y) a b).sum

/-- The `magnitudeA`/`magnitudeB` accumulator: the sum of squared components. -/
noncomputable def magnitude (v : List ℝ) : ℝ := (v.map (fun x => x * x)).sum

/-- `EmbeddingService.cosineSimilarity`; `none` models the thrown
`"Vector dimensionality mismatch"` error. -/
noncomputable def cosineSimilarity (vectorA vectorB : List ℝ) : Option ℝ :=
  if vectorA.length ≠ vectorB.length then none
  else if Real.sqrt (magnitude vectorA) = 0 ∨ Real.sqrt (magnitude vectorB) = 0 then
    some 0
  else
    some (max 0 (min 1 (dotProduct vectorA vectorB /
      (Real.sqrt (magnitude vectorA) * Real.sqrt (magnitude vectorB)))))

/-- The Euclidean norm, written from the specification's words ("the product
of Euclidean norms"), independently of the code's accumulators. -/
noncomputable def euclideanNorm (v : List ℝ) : ℝ := Real.sqrt ((v.map (fun x => x ^ 2)).sum)

/-- The specification's similarity: cosine (dot product over the product of
Euclidean norms) clamped to `[0, 1]`, defined as `0` when either norm is
zero. -/
noncomputable def clampedCosineSpec (a b : List ℝ) : ℝ :=
  if euclideanNorm a = 0 ∨ euclideanNorm b = 0 then 0
  else max 0 (min 1 (dotProduct a b / (euclideanNorm a * euclideanNorm b)))

/-- Metadata attached to a stored chunk (`{chunkIndex, totalChunks}`, plus
`{source: 'url', originalUrl}` on the URL path). -/
structure ChunkMeta where
  chunkIndex : ℕ
  totalChunks : ℕ
  sourceUrl : Option (List Char)
deriving DecidableEq

/-- A candidate passed to `findSimilarChunks` (the shape of the `documentChunks`
array built from the stored embeddings). -/
structure EmbChunk where
  id : ℕ
  embedding : List ℝ
  content : List Char
  documentId : ℕ
  metadata : Option ChunkMeta

/-- A ranked result of `findSimilarChunks` (the candidate with `similarity`
attached and, in the returned list, the `embedding` field stripped). -/
structure RankedChunk where
  id : ℕ
  content : List Char
  similarity : ℝ
  documentId : ℕ
  metadata : Option ChunkMeta

/-- JS `Array.prototype.map` with a callback that can throw: the first throw
aborts the whole `map` (`none`). -/
def mapThrow (f : α → Option β) : List α → Option (List β)
  | [] => some []
  | x :: xs =>
    match f x with
    | none => none
    | some y => (mapThrow f xs).map (fun ys => y :: ys)

/-- Score one candidate against the query (one arm of the `documentChunks.map`
in `findSimilarChunks`); throws exactly when `cosineSimilarity` does. -/
noncomputable def scoreChunk (queryEmbedding : List ℝ) (chunk : EmbChunk) : Option RankedChunk :=
  (cosineSimilarity queryEmbedding chunk.embedding).map (fun s =>
    { id := chunk.id, content := chunk.content, similarity := s,
      documentId := chunk.documentId, metadata := chunk.metadata })

/-- The ordering realized by the comparator `(a, b) => b.similarity - a.similarity`:
descending similarity. -/
def simGE (a b : RankedChunk) : Prop := b.similarity ≤ a.similarity

noncomputable instance : DecidableRel simGE := fun _ _ => Real.decidableLE _ _

instance : IsTotal RankedChunk simGE := ⟨fun a b => le_total b.similarity a.similarity⟩

instance : IsTrans RankedChunk simGE := ⟨fun _ _ _ hab hbc => le_trans hbc hab⟩

/-- `EmbeddingService.findSimilarChunks`: score every candidate (a mismatch
throws and aborts the whole call), sort by similarity descending and take the
top `topK`. `Array.prototype.sort` is a stable sort, and a stable sort under a
total preorder has a unique result, here realized by insertion sort. -/
noncomputable def findSimilarChunks (queryEmbedding : List ℝ) (documentChunks : List EmbChunk)
    (topK : ℕ := 5) : Option (List RankedChunk) :=
  (mapThrow (scoreChunk queryEmbedding) documentChunks).map
    (fun semanticResults => (List.insertionSort simGE semanticResults).take topK)

structure Doc where
  id : ℕ
  filename : List Char
  originalName : List Char
  mimeType : List Char
  size : ℕ
  content : Option (List Char)
  status : String
  uploadedAt : ℕ
  processedAt : Option ℕ

/-- The fields of `insertDocumentSchema` (what `createDocument` receives). -/
structure InsertDoc where
  filename : List Char
  originalName : List Char
  mimeType : List Char
  size : ℕ

/-- A stored embedding row. -/
structure EmbRec where
  id : ℕ
  documentId : ℕ
  content : List Char
  embedding : List ℝ
  metadata : Option ChunkMeta
  createdAt : ℕ

/-- The fields of `insertEmbeddingSchema` (what `createEmbedding` receives). -/
structure InsertEmb where
  documentId : ℕ
  content : List Char
  embedding : List ℝ
  metadata : Option ChunkMeta

/-- One entry of a chat message's `sources` list. -/
structure SourceRef where
  id : ℕ
  name : List Char
  similarity : ℝ

structure Msg where
  id : ℕ
  content : List Char
  role : String
  sources : Option (List SourceRef)
  createdAt : ℕ

structure State where
  documents : List Doc
  embeddings : List EmbRec
  chatMessages : List Msg
  nextId : ℕ
  nextTime : ℕ
  statusLog : List (ℕ × String)

def getDocument (id : ℕ) (s : State) : Option Doc :=
  s.documents.find? (fun d => d.id == id)

def createDocument (insertDocument : InsertDoc) (s : State) : State × Doc :=
  let document : Doc :=
    { id := s.nextId, filename := insertDocument.filename,
      originalName := insertDocument.originalName, mimeType := insertDocument.mimeType,
      size := insertDocument.size, content := none, status := "processing",
      uploadedAt := s.nextTime, processedAt := none }
  ({ s with documents := s.documents ++ [document],
            nextId := s.nextId + 1, nextTime := s.nextTime + 1 }, document)

/-- `MemStorage.updateDocumentStatus`: a no-op when the document is absent;
otherwise overwrite `status`, overwrite `content` when one is passed, and
stamp `processedAt` when the new status is `"completed"`. -/
def updateDocumentStatus (id : ℕ) (status : String) (content : Option (List Char))
    (s : State) : State :=
  match s.documents.find? (fun d => d.id == id) with
  | none => s
  | some _ =>
    { s with
      documents := s.documents.map (fun d =>
        if d.id == id then
          { d with
            status := status,
            content := match content with | some c => some c | none => d.content,
            processedAt := if status = "completed" then some s.nextTime else d.processedAt }
        else d),
      nextTime := s.nextTime + 1,
      statusLog := s.statusLog ++ [(id, status)] }

def createEmbedding (e : InsertEmb) (s : State) : State × EmbRec :=
  let row : EmbRec :=
    { id := s.nextId, documentId := e.documentId, content := e.content,
      embedding := e.embedding, metadata := e.metadata, createdAt := s.nextTime }
  ({ s with embeddings := s.embeddings ++ [row],
            nextId := s.nextId + 1, nextTime := s.nextTime + 1 }, row)

/-- `MemStorage.createEmbeddingsBatch`: insert the records one after the
other, each with its own fresh id. -/
def createEmbeddingsBatch (es : List InsertEmb) (s : State) : State :=
  es.foldl (fun st e => (createEmbedding e st).1) s

def getAllEmbeddings (s : State) : List EmbRec := s.embeddings

def createChatMessage (content : List Char) (role : String)
    (sources : Option (List SourceRef)) (s : State) : State × Msg :=
  let message : Msg :=
    { id := s.nextId, content := content, role := role, sources := sources,
      createdAt := s.nextTime }
  ({ s with chatMessages := s.chatMessages ++ [message],
            nextId := s.nextId + 1, nextTime := s.nextTime + 1 }, message)

/-- The stable ascending sort by `createdAt` performed by
`getAllChatMessages` (`Array.prototype.sort` is stable). -/
def sortMsgsByTime (msgs : List Msg) : List Msg :=
  List.insertionSort (fun a b => a.createdAt ≤ b.createdAt) msgs

/-- `MemStorage.getAllChatMessages`: when no documents exist the whole chat
history is cleared and `[]` returned; otherwise the messages are returned
sorted by time, last 12 (`slice(-12)`), and the store is untouched. -/
def getAllChatMessages (s : State) : State × List Msg :=
  if s.documents.isEmpty then ({ s with chatMessages := [] }, [])
  else
    (s, (sortMsgsByTime s.chatMessages).drop ((sortMsgsByTime s.chatMessages).length - 12))

/-! ## The ingestion pipelines: `processDocumentAsync`, `processUrlAsync`

Both are modelled as state transformers. External failure points the code
catches are oracle parameters: `extracted = none` means the extraction step
threw (caught by the top-level `catch`), and `fails i = true` means creating
the embedding for chunk `i` threw (caught per chunk, which turns that chunk's
result into `null`, filtered out before storing). Nothing else inside the
`try` can throw: chunking is pure and the in-memory store never throws. -/

/-- The record built for chunk `p.2` at overall index `p.1` (the successful
arm of the per-chunk `try`). On the local-file path `sourceUrl = none`; on
the URL path the metadata additionally carries `{source: 'url', originalUrl}`. -/
noncomputable def mkChunkRecord (docId totalChunks : ℕ) (sourceUrl : Option (List Char))
    (p : ℕ × List Char) : InsertEmb :=
  { documentId := docId, content := p.2,
    embedding := (generateEmbedding (p.2.map (fun c => (c.toNat : ℤ)))).map (fun (q : ℚ) => (q : ℝ)),
    metadata := some { chunkIndex := p.1, totalChunks := totalChunks, sourceUrl := sourceUrl } }

/-- The surviving records of one batch: each chunk is embedded concurrently,
a per-chunk failure is caught and yields `null`, and the `null`s are filtered
out (`validEmbeddings`). -/
noncomputable def batchValid (docId totalChunks : ℕ) (sourceUrl : Option (List Char))
    (fails : ℕ → Bool) (startIdx : ℕ) (batch : List (List Char)) : List InsertEmb :=
  (List.enumFrom startIdx batch).filterMap (fun p =>
    if fails p.1 then none else some (mkChunkRecord docId totalChunks sourceUrl p))

/-- The batch loop `for (batchIndex = 0; batchIndex < totalBatches; ...)`:
the fuel argument is `totalBatches`, and each round processes the slice
`chunks.slice(startIdx, startIdx + batchSize)` and stores the surviving
records (the local-file path stores them as one batch write, the URL path one
by one inside the chunk tasks; either way the same records are appended). -/
noncomputable def processBatchLoop (docId totalChunks batchSize : ℕ)
    (sourceUrl : Option (List Char)) (fails : ℕ → Bool) :
    ℕ → ℕ → List (List Char) → State → State
  | 0, _, _, s => s
  | fuel + 1, startIdx, remaining, s =>
    processBatchLoop docId totalChunks batchSize sourceUrl fails fuel
      (startIdx + batchSize) (remaining.drop batchSize)
      (if (batchValid docId totalChunks sourceUrl fails startIdx (remaining.take batchSize)).isEmpty
       then s
       else createEmbeddingsBatch
         (batchValid docId totalChunks sourceUrl fails startIdx (remaining.take batchSize)) s)

/-- `processDocumentAsync` (local-file path): bail out if the document is
gone; on an extraction failure the `catch` sets status `"failed"`; otherwise
write the content keeping status `"processing"`, chunk, embed in batches of
`min(100, chunks.length)`, and finally set status `"completed"`. -/
noncomputable def processDocumentAsync (docId : ℕ) (extracted : Option (List Char))
    (fails : ℕ → Bool) (s : State) : State :=
  match getDocument docId s with
  | none => s
  | some _ =>
    match extracted with
    | none => updateDocumentStatus docId "failed" none s
    | some text =>
      let chunks := chunkText text 6000
      let batchSize := min 100 chunks.length
      let totalBatches := (chunks.length + batchSize - 1) / batchSize
      updateDocumentStatus docId "completed" none
        (processBatchLoop docId chunks.length batchSize none fails totalBatches 0 chunks
          (updateDocumentStatus docId "processing" (some text) s))

/-- The asynchronous part of the upload route: validate the MIME type first
(unsupported → status `"failed"`, stop), otherwise run `processDocumentAsync`. -/
noncomputable def uploadValidateAndProcess (docId : ℕ) (supported : Bool)
    (extracted : Option (List Char)) (fails : ℕ → Bool) (s : State) : State :=
  if supported then processDocumentAsync docId extracted fails s
  else updateDocumentStatus docId "failed" none s

/-- `processUrlAsync` (URL path): bail out if the document is gone; an
extraction (crawl) failure sets status `"error"`; otherwise the extracted
content is stored with status `"completed"` *before* the embedding loop, which
then runs in batches of `min(50, chunks.length)` with per-page/per-chunk
failures isolated; no further status write happens on the success path. -/
noncomputable def processUrlAsync (docId : ℕ) (url : List Char)
    (extracted : Option (List Char)) (fails : ℕ → Bool) (s : State) : State :=
  match getDocument docId s with
  | none => s
  | some _ =>
    match extracted with
    | none => updateDocumentStatus docId "error" none s
    | some extractedContent =>
      let chunks := chunkText extractedContent 6000
      let batchSize := min 50 chunks.length
      let totalBatches := (chunks.length + batchSize - 1) / batchSize
      processBatchLoop docId chunks.length batchSize (some url) fails totalBatches 0 chunks
        (updateDocumentStatus docId "completed" (some extractedContent) s)

/-! ## The chat handler: `POST /api/chat/messages`

The handler parses the body (a parse failure throws before anything is
stored, modelled as `rawContent = none`), stores the user message, loads the
recent history, embeds the query, ranks all stored embeddings against it
(`findSimilarChunks` — which throws, aborting the handler, if any stored
embedding's length differs from the query embedding's), applies the keyword /
context heuristics, composes the response, resolves the top 3 sources and
stores the assistant message. -/

def toLowerList (cs : List Char) : List Char := cs.map Char.toLower

/-- JS `String.prototype.includes`. -/
def includesSub (hay needle : List Char) : Bool := decide (needle <:+: hay)

def characterNames : List (List Char) :=
  ["rosemary", "barr", "helen", "reacher", "vladimir", "chenko", "zee", "yanni",
   "emerson"].map String.toList

def websiteNames : List (List Char) :=
  ["crapharma", "norbury", "cingulate", "mhdeep", "messi", "lionel"].map String.toList

def translationKeywords : List (List Char) :=
  ["translate", "translation", "prevod", "prevedi", "cyrillic", "ćirilica", "latin",
   "latinica"].map String.toList

def contextKeywords : List (List Char) :=
  ["this", "that", "previous", "above", "earlier", "before"].map String.toList

def allKeywords : List (List Char) :=
  characterNames ++ websiteNames ++ translationKeywords ++ contextKeywords

def noDocumentsMessage : List Char :=
  ("I don't have any documents to reference. Please upload documents first to get " ++
   "started with intelligent document analysis.").toList

/-- `EmbeddingService.generateChatResponse`: the fixed no-documents reply when
the context is empty, otherwise a template around the first three context
excerpts. -/
def generateChatResponse (_query : List Char) (context : List (List Char))
    (_conversationHistory : List Msg) : List Char :=
  if context.isEmpty then noDocumentsMessage
  else
    ("Based on the uploaded documents, here's what I found:\n\n").toList ++
      List.intercalate ("\n\n").toList (context.take 3) ++
      ("\n\n---\n\nThis information is extracted from your documents. For more " ++
       "detailed analysis, the system processes document content using advanced " ++
       "text analysis.").toList

/-- The keyword-augmentation step: when the query mentions a tracked keyword
and is not a translation request, candidates containing the keyword (plus two
hard-wired synonyms) are appended with synthetic similarity `0.5`,
deduplicated by id, the whole list capped at 8. -/
noncomputable def augmentWithKeywords (queryLower : List Char)
    (embeddingData : List EmbChunk) (sc : List RankedChunk) : List RankedChunk :=
  match allKeywords.find? (fun k => includesSub queryLower k) with
  | some relevantKeyword =>
    (sc ++
      ((((embeddingData.filter (fun chunk =>
            includesSub (toLowerList chunk.content) relevantKeyword ||
            (relevantKeyword == ("barr").toList &&
              includesSub (toLowerList chunk.content) (("rosemary").toList)) ||
            (relevantKeyword == ("crapharma").toList &&
              includesSub (toLowerList chunk.content) (("cra").toList)))).filter
          (fun chunk => !(sc.map (fun c => c.id)).contains chunk.id)).take 3).map
        (fun chunk =>
          ({ id := chunk.id, content := chunk.content, similarity := (0.5 : ℝ),
             documentId := chunk.documentId, metadata := chunk.metadata } : RankedChunk)))).take 8
  | none => sc

/-- The `POST /api/chat/messages` handler body. The second component is the
JSON response `{userMessage, assistantMessage}`; `none` models an error
response (the route's `catch`), in which case the first component is the
store as the failure left it. -/
noncomputable def handleChatMessage (rawContent : Option (List Char)) (s0 : State) :
    State × Option (Msg × Msg) :=
  match rawContent with
  | none => (s0, none)
  | some content =>
    let us := createChatMessage content "user" none s0
    let gm := getAllChatMessages us.1
    let recentMessages := gm.2.drop (gm.2.length - 16)
    let queryEmbedding :=
      (generateEmbedding (content.map (fun c => (c.toNat : ℤ)))).map (fun (q : ℚ) => (q : ℝ))
    let embeddingData := (getAllEmbeddings gm.1).map (fun e =>
      ({ id := e.id, embedding := e.embedding, content := e.content,
         documentId := e.documentId, metadata := e.metadata } : EmbChunk))
    let queryLower := toLowerList content
    let mentionsKeyword := allKeywords.any (fun k => includesSub queryLower k)
    let isTranslationRequest := translationKeywords.any (fun k => includesSub queryLower k)
    let needsContext :=
      contextKeywords.any (fun k => includesSub queryLower k) || isTranslationRequest
    match findSimilarChunks queryEmbedding embeddingData 5 with
    | none => (gm.1, none)
    | some found =>
      let sc1 := if needsContext then found.take 3 else found
      let similarChunks :=
        if mentionsKeyword && !isTranslationRequest then
          augmentWithKeywords queryLower embeddingData sc1
        else sc1
      let response := generateChatResponse content (similarChunks.map (fun c => c.content))
        recentMessages
      let sourceDocuments := (similarChunks.take 3).filterMap (fun chunk =>
        (getDocument chunk.documentId gm.1).map (fun d =>
          ({ id := d.id, name := d.originalName, similarity := chunk.similarity } : SourceRef)))
      let am := createChatMessage response "assistant"
        (if sourceDocuments.length > 0 then some sourceDocuments else none) gm.1
      (am.1, some (us.2, am.2))

/-! ## Trace predicates and concrete instances -/

/-- The status writes a pipeline run appended for document `docId`:
the suffix of the ghost `statusLog` added after `before`, restricted to
`docId`. -/
def newStatusWrites (before after : State) (docId : ℕ) : List String :=
  ((after.statusLog.drop before.statusLog.length).filter (fun p => p.1 == docId)).map
    (fun p => p.2)

/-- A legal lifecycle trace: either no write at all, or some `"processing"`
(re-)writes followed by exactly one terminal write, with nothing after it. -/
def okStatusTrace (t : List String) : Prop :=
  t = [] ∨
    ∃ pre last, t = pre ++ [last] ∧ (∀ x ∈ pre, x = "processing") ∧
      (last = "completed" ∨ last = "failed" ∨ last = "error")

/-- UTF-16 code units of the string `"hello"`. -/
def helloCodes : List ℤ := [104, 101, 108, 108, 111]

/-- A candidate whose vector length (2) differs from a 1-dimensional query's. -/
def mismatchChunk : EmbChunk :=
  { id := 0, embedding := [1, 0], content := ['a'], documentId := 0, metadata := none }

/-- A well-formed 1-dimensional candidate. -/
def okChunk : EmbChunk :=
  { id := 1, embedding := [1], content := ['b'], documentId := 1, metadata := none }

/-- Another well-formed 1-dimensional candidate (zero vector). -/
def zeroChunk : EmbChunk :=
  { id := 2, embedding := [0], content := ['c'], documentId := 2, metadata := none }

def emptyState : State :=
  { documents := [], embeddings := [], chatMessages := [], nextId := 0, nextTime := 0,
    statusLog := [] }

def sampleInsertDoc : InsertDoc :=
  { filename := ['f'], originalName := ['d'], mimeType := ['t'], size := 1 }

/-- A store holding exactly one freshly created document (id 0, processing). -/
def oneDocState : State := (createDocument sampleInsertDoc emptyState).1

/-- A completed document used by the chat counterexample. -/
def cexDoc : Doc :=
  { id := 0, filename := ['f'], originalName := ['d'], mimeType := ['t'], size := 1,
    content := none, status := "completed", uploadedAt := 0, processedAt := none }

/-- A stored embedding whose vector has length 1 (≠ 1536): ranking any query
against it throws. -/
def badEmbRec : EmbRec :=
  { id := 1, documentId := 0, content := ['c'], embedding := [0], metadata := none,
    createdAt := 0 }

/-- One document, one dimension-mismatched embedding, no chat history. -/
def cexChatState : State :=
  { documents := [cexDoc], embeddings := [badEmbRec], chatMessages := [], nextId := 2,
    nextTime := 1, statusLog := [] }

/-- A 2999-character sentence of `'a'`s. -/
def aSentence : List Char := List.replicate 2999 'a'

/-- Ten copies of `aSentence`, each closed by `'.'`: a text that `chunkText`
splits into exactly 10 chunks at the default 6000 bound. -/
def tenSentenceText : List Char := (List.replicate 10 (aSentence ++ ['.'])).flatten

/-! ## Store and pipeline lemmas -/

/-! ## Lemmas and claim theorems -/

theorem generateEmbedding_length (text : List ℤ) : (generateEmbedding text).length = 1536 := by
  simp [generateEmbedding]

theorem jsRem_bounds (a : ℤ) {b : ℤ} (hb : 0 < b) : -b < jsRem a b ∧ jsRem a b < b := by
  unfold jsRem
  split
  · constructor
    · have := Int.emod_nonneg a (ne_of_gt hb)
      omega
    · exact Int.emod_lt_of_pos a hb
  · have h1 := Int.emod_nonneg (-a) (ne_of_gt hb)
    have h2 := Int.emod_lt_of_pos (-a) hb
    constructor <;> omega

theorem embedComponent_bounds (text : List ℤ) (i : ℕ) :
    -1 < embedComponent text i ∧ embedComponent text i < 1 := by
  unfold embedComponent
  obtain ⟨h1, h2⟩ := jsRem_bounds (jsHash (text ++ reprCodes i)) (b := 1000) (by norm_num)
  constructor
  · rw [lt_div_iff₀ (by norm_num : (0:ℚ) < 1000)]
    calc (-1 : ℚ) * 1000 = ((-1000 : ℤ) : ℚ) := by norm_num
      _ < _ := by exact_mod_cast h1
  · rw [div_lt_one (by norm_num : (0:ℚ) < 1000)]
    exact_mod_cast h2

/-! ## The chunker: `DocumentProcessor.chunkText`

`chunkText` splits on runs of sentence-terminal punctuation `[.!?]+`, keeps
the pieces containing a non-whitespace character (`s.trim().length > 0`),
greedily accumulates them into a buffer re-appending `". "` after each
sentence, emits the trimmed buffer whenever appending the next sentence would
push it over `maxChunkSize` (and the buffer is non-empty), and finally falls
back to `[text.substring(0, maxChunkSize)]` when no chunk was produced. -/

theorem trimChars_length_le (cs : List Char) : (trimChars cs).length ≤ cs.length := by
  unfold trimChars
  calc ((cs.dropWhile Char.isWhitespace).reverse.dropWhile Char.isWhitespace).reverse.length
      = ((cs.dropWhile Char.isWhitespace).reverse.dropWhile Char.isWhitespace).length := by
        simp
    _ ≤ (cs.dropWhile Char.isWhitespace).reverse.length :=
        (List.dropWhile_sublist _).length_le
    _ = (cs.dropWhile Char.isWhitespace).length := by simp
    _ ≤ cs.length := (List.dropWhile_sublist _).length_le

/-- Every chunk the loop emits is either within `maxSize` or is the trimmed
form of a single sentence from `S` with its re-appended `". "` terminator. -/
theorem chunkLoop_chunks {maxSize : ℕ} (S : List (List Char)) :
    ∀ (sents : List (List Char)) (current : List Char),
      (∀ s ∈ sents, s ∈ S) →
      (current = [] ∨ current.length ≤ maxSize ∨ ∃ s ∈ S, current = s ++ ['.', ' ']) →
      ∀ chunk ∈ chunkLoop maxSize current sents,
        chunk.length ≤ maxSize ∨ ∃ s ∈ S, chunk = trimChars (s ++ ['.', ' '])
  | [], current => by
    intro _hsub hinv chunk hchunk
    unfold chunkLoop at hchunk
    split at hchunk
    · rw [List.mem_singleton] at hchunk
      subst hchunk
      rcases hinv with h | h | ⟨s, hs, rfl⟩
      · subst h
        left
        simp [trimChars]
      · exact Or.inl (le_trans (trimChars_length_le _) h)
      · exact Or.inr ⟨s, hs, rfl⟩
    · simp at hchunk
  | s :: rest, current => by
    intro hsub hinv chunk hchunk
    unfold chunkLoop at hchunk
    by_cases hcond : (current ++ s ++ ['.', ' ']).length > maxSize ∧ current.length > 0
    · rw [if_pos hcond] at hchunk
      rcases List.mem_cons.mp hchunk with rfl | hmem
      · rcases hinv with h | h | ⟨t, ht, rfl⟩
        · subst h
          simp at hcond
        · exact Or.inl (le_trans (trimChars_length_le _) h)
        · exact Or.inr ⟨t, ht, rfl⟩
      · exact chunkLoop_chunks S rest (s ++ ['.', ' '])
          (fun t ht => hsub t (List.mem_cons_of_mem s ht))
          (Or.inr (Or.inr ⟨s, hsub s (List.mem_cons_self _ _), rfl⟩)) chunk hmem
    · rw [if_neg hcond] at hchunk
      refine chunkLoop_chunks S rest (current ++ s ++ ['.', ' '])
        (fun t ht => hsub t (List.mem_cons_of_mem s ht)) ?_ chunk hchunk
      rcases Decidable.not_and_iff_or_not.mp hcond with h | h
      · exact Or.inr (Or.inl (by omega))
      · have hc : current = [] := by
          cases current with
          | nil => rfl
          | cons a l => simp at h
        subst hc
        exact Or.inr (Or.inr ⟨s, hsub s (List.mem_cons_self _ _), by simp⟩)

/-- A chunk built from a single sentence is at most one character longer than
the sentence: the trim always removes the trailing `' '` of the re-appended
`". "` (and possibly more), keeping at most `s` and the `'.'`. -/
theorem trimChars_sentence_length (s : List Char) :
    (trimChars (s ++ ['.', ' '])).length ≤ s.length + 1 := by
  unfold trimChars
  rw [List.length_reverse]
  have hwr : (s ++ ['.', ' ']).reverse = ' ' :: '.' :: s.reverse := by
    rw [List.reverse_append]
    rfl
  have hpre : ((s ++ ['.', ' ']).dropWhile Char.isWhitespace).reverse
      <+: ' ' :: '.' :: s.reverse := by
    rw [← hwr]
    exact List.reverse_prefix.mpr (List.dropWhile_suffix _)
  cases hrev : ((s ++ ['.', ' ']).dropWhile Char.isWhitespace).reverse with
  | nil => simp
  | cons c r =>
    rw [hrev] at hpre
    obtain ⟨hc, hr⟩ := List.cons_prefix_cons.mp hpre
    rw [hc, List.dropWhile_cons, if_pos (by decide : (' ').isWhitespace = true)]
    calc (r.dropWhile Char.isWhitespace).length
        ≤ r.length := (List.dropWhile_sublist _).length_le
      _ ≤ ('.' :: s.reverse).length := hr.length_le
      _ = s.length + 1 := by simp

/-- Every chunk is within `maxChunkSize`, or is the trimmed form of a single
sentence (with its re-appended terminator) kept intact; the latter exceeds
the bound only for a sentence of length at least `maxSize`. -/
theorem chunkText_bound (text : List Char) (maxSize : ℕ) :
    ∀ chunk ∈ chunkText text maxSize,
      chunk.length ≤ maxSize ∨
        ∃ s ∈ sentencesOf text,
          chunk = trimChars (s ++ ['.', ' ']) ∧ chunk.length ≤ s.length + 1 ∧
            maxSize ≤ s.length := by
  intro chunk hchunk
  unfold chunkText at hchunk
  split at hchunk
  · have := chunkLoop_chunks (sentencesOf text) (sentencesOf text) []
      (fun _ h => h) (Or.inl rfl) chunk hchunk
    rcases this with h | ⟨s, hs, rfl⟩
    · exact Or.inl h
    · by_cases hlen : (trimChars (s ++ ['.', ' '])).length ≤ maxSize
      · exact Or.inl hlen
      · refine Or.inr ⟨s, hs, rfl, trimChars_sentence_length s, ?_⟩
        have h2 := trimChars_sentence_length s
        omega
  · rw [List.mem_singleton] at hchunk
    subst hchunk
    exact Or.inl (by simp)

/-- `chunkText` never returns an empty list; when the loop produced nothing it
returns exactly the one fallback chunk `text.take maxChunkSize`; and on the
empty text it returns exactly one chunk. -/
theorem chunkText_nonempty (text : List Char) (maxSize : ℕ) :
    chunkText text maxSize ≠ [] ∧
      (chunkLoop maxSize [] (sentencesOf text) = [] →
        chunkText text maxSize = [text.take maxSize]) ∧
      (chunkText [] maxSize).length = 1 := by
  refine ⟨?_, ?_, ?_⟩
  · unfold chunkText
    split
    · intro h
      simp_all
    · simp
  · intro h
    unfold chunkText
    rw [h]
    simp
  · have : sentencesOf [] = [] := by simp [sentencesOf, splitOnTerm]
    simp [chunkText, this, chunkLoop, trimChars]

/-! ## The similarity ranker: `EmbeddingService.cosineSimilarity` and
`EmbeddingService.findSimilarChunks`

`cosineSimilarity` throws on a length mismatch (modelled as `none`), computes
the dot product and the two squared magnitudes in one loop, takes square
roots, returns `0` when either norm is `0`, and otherwise clamps the cosine
to `[0, 1]` with `Math.max(0, Math.min(1, similarity))`. -/

theorem magnitude_nonneg (v : List ℝ) : 0 ≤ magnitude v := by
  unfold magnitude
  induction v with
  | nil => simp
  | cons x xs ih =>
    simp only [List.map_cons, List.sum_cons]
    exact add_nonneg (mul_self_nonneg x) ih

theorem magnitude_pos {v : List ℝ} (hv : ∃ x ∈ v, x ≠ 0) : 0 < magnitude v := by
  obtain ⟨x, hx, hx0⟩ := hv
  unfold magnitude
  induction v with
  | nil => simp at hx
  | cons y ys ih =>
    simp only [List.map_cons, List.sum_cons]
    rcases List.mem_cons.mp hx with rfl | hmem
    · exact add_pos_of_pos_of_nonneg (mul_self_pos.mpr hx0) (magnitude_nonneg ys)
    · exact add_pos_of_nonneg_of_pos (mul_self_nonneg y) (ih hmem)

theorem dotProduct_self (v : List ℝ) : dotProduct v v = magnitude v := by
  unfold dotProduct magnitude
  induction v with
  | nil => simp
  | cons x xs ih => simp [ih]

theorem euclideanNorm_eq_sqrt_magnitude (v : List ℝ) :
    euclideanNorm v = Real.sqrt (magnitude v) := by
  unfold euclideanNorm magnitude
  congr 1
  congr 1
  exact List.map_congr_left (fun x _ => sq x)

/-- The code's `cosineSimilarity` refines the specification formula whenever
the lengths agree. -/
theorem cosineSimilarity_eq_spec {a b : List ℝ} (h : a.length = b.length) :
    cosineSimilarity a b = some (clampedCosineSpec a b) := by
  unfold cosineSimilarity clampedCosineSpec
  rw [euclideanNorm_eq_sqrt_magnitude, euclideanNorm_eq_sqrt_magnitude, if_neg (by omega)]
  split <;> rfl

/-- Self-similarity of a vector with a nonzero component is exactly 1. -/
theorem cosineSimilarity_self {v : List ℝ} (hv : ∃ x ∈ v, x ≠ 0) :
    cosineSimilarity v v = some 1 := by
  have hpos : 0 < magnitude v := magnitude_pos hv
  have hsqrt : 0 < Real.sqrt (magnitude v) := Real.sqrt_pos.mpr hpos
  unfold cosineSimilarity
  rw [if_neg (by omega), if_neg (by push_neg; exact ⟨ne_of_gt hsqrt, ne_of_gt hsqrt⟩)]
  rw [dotProduct_self, Real.mul_self_sqrt (le_of_lt hpos),
    div_self (ne_of_gt hpos)]
  norm_num

/-- `cosineSimilarity` throws exactly on a dimensionality mismatch. -/
theorem cosineSimilarity_none_iff (a b : List ℝ) :
    cosineSimilarity a b = none ↔ a.length ≠ b.length := by
  unfold cosineSimilarity
  constructor
  · intro h
    by_contra hlen
    rw [if_neg (by omega : ¬a.length ≠ b.length)] at h
    split at h <;> simp at h
  · intro h
    rw [if_pos h]

theorem scoreChunk_none_iff (q : List ℝ) (c : EmbChunk) :
    scoreChunk q c = none ↔ c.embedding.length ≠ q.length := by
  unfold scoreChunk
  rw [Option.map_eq_none', cosineSimilarity_none_iff]
  omega

theorem mapThrow_eq_none_of_mem {f : α → Option β} {l : List α} {x : α}
    (hx : x ∈ l) (hfx : f x = none) : mapThrow f l = none := by
  induction l with
  | nil => simp at hx
  | cons y ys ih =>
    unfold mapThrow
    rcases List.mem_cons.mp hx with rfl | hmem
    · rw [hfx]
    · cases hy : f y with
      | none => rfl
      | some b => rw [ih hmem]; rfl

theorem mapThrow_isSome {f : α → Option β} {l : List α}
    (h : ∀ x ∈ l, f x ≠ none) : ∃ ys, mapThrow f l = some ys := by
  induction l with
  | nil => exact ⟨[], rfl⟩
  | cons y ys ih =>
    obtain ⟨zs, hzs⟩ := ih (fun x hx => h x (List.mem_cons_of_mem y hx))
    cases hy : f y with
    | none => exact absurd hy (h y (List.mem_cons_self _ _))
    | some b =>
      refine ⟨b :: zs, ?_⟩
      unfold mapThrow
      rw [hy, hzs]
      rfl

/-- Inserting `x` moves it ahead only of strictly-smaller keys, so the
subsequence of entries with any fixed similarity is the same as if `x` had
been put in front: insertion sort is stable. -/
theorem filter_orderedInsert (v : ℝ) (x : RankedChunk) (l : List RankedChunk) :
    (List.orderedInsert simGE x l).filter (fun r => decide (r.similarity = v))
      = ((x :: l).filter (fun r => decide (r.similarity = v))) := by
  induction l with
  | nil => rfl
  | cons y ys ih =>
    rw [List.orderedInsert]
    by_cases hxy : simGE x y
    · rw [if_pos hxy]
    · rw [if_neg hxy]
      have hlt : x.similarity < y.similarity := not_le.mp hxy
      by_cases hx : x.similarity = v
      · have hy : y.similarity ≠ v := by rw [← hx]; exact ne_of_gt hlt
        simp only [List.filter_cons, ih]
        simp [hy, hx]
      · simp only [List.filter_cons, ih]
        simp [hx]

/-- Entries of any fixed similarity appear in the sorted output exactly in
their input order. -/
theorem filter_insertionSort (v : ℝ) (l : List RankedChunk) :
    (List.insertionSort simGE l).filter (fun r => decide (r.similarity = v))
      = l.filter (fun r => decide (r.similarity = v)) := by
  induction l with
  | nil => rfl
  | cons x xs ih =>
    rw [List.insertionSort, filter_orderedInsert]
    simp only [List.filter_cons, ih]

/-! ## The store: `MemStorage`

`MemStorage` keeps three JS `Map`s (documents, embeddings, chat messages).
`Map` iteration follows insertion order, so each is modelled as a list in
insertion order. `randomUUID()` is modelled by a fresh-id counter and
`new Date()` by a logical clock. `statusLog` is a ghost field recording every
status write `updateDocumentStatus` performs, used to state the lifecycle
invariant; no operation reads it. -/

theorem countP_not_add (p : α → Bool) (l : List α) :
    l.countP (fun a => !p a) + l.countP p = l.length := by
  induction l with
  | nil => simp
  | cons x xs ih =>
    by_cases h : p x <;> simp [List.countP_cons, h] <;> omega

theorem length_filterMap_if {α β : Type} (p : α → Bool) (g : α → β) (l : List α) :
    (l.filterMap (fun a => if p a then none else some (g a))).length
      = l.countP (fun a => !p a) := by
  induction l with
  | nil => rfl
  | cons x xs ih =>
    by_cases h : p x <;> simp [List.filterMap_cons, List.countP_cons, h, ih]

theorem createEmbeddingsBatch_cons (e : InsertEmb) (es : List InsertEmb) (s : State) :
    createEmbeddingsBatch (e :: es) s = createEmbeddingsBatch es ((createEmbedding e s).1) :=
  rfl

theorem createEmbeddingsBatch_frame (es : List InsertEmb) (s : State) :
    (createEmbeddingsBatch es s).documents = s.documents ∧
    (createEmbeddingsBatch es s).chatMessages = s.chatMessages ∧
    (createEmbeddingsBatch es s).statusLog = s.statusLog := by
  induction es generalizing s with
  | nil => exact ⟨rfl, rfl, rfl⟩
  | cons e es ih =>
    rw [createEmbeddingsBatch_cons]
    exact ih ((createEmbedding e s).1)

theorem createEmbeddingsBatch_count (docId : ℕ) (es : List InsertEmb) (s : State) :
    ((createEmbeddingsBatch es s).embeddings.filter (fun r => r.documentId == docId)).length
      = (s.embeddings.filter (fun r => r.documentId == docId)).length
        + es.countP (fun e => e.documentId == docId) := by
  induction es generalizing s with
  | nil => simp [createEmbeddingsBatch]
  | cons e es ih =>
    rw [createEmbeddingsBatch_cons, ih]
    have hemb : ((createEmbedding e s).1).embeddings
        = s.embeddings ++ [⟨s.nextId, e.documentId, e.content, e.embedding,
            e.metadata, s.nextTime⟩] := rfl
    rw [hemb, List.filter_append, List.length_append, List.countP_cons]
    by_cases h : e.documentId = docId
    · simp [h]
      omega
    · simp [h]

theorem batchValid_length (docId total : ℕ) (srcUrl : Option (List Char)) (fails : ℕ → Bool)
    (startIdx : ℕ) (batch : List (List Char)) :
    (batchValid docId total srcUrl fails startIdx batch).length
      = (List.enumFrom startIdx batch).countP (fun p => !fails p.1) := by
  unfold batchValid
  exact length_filterMap_if _ _ _

theorem batchValid_documentId (docId total : ℕ) (srcUrl : Option (List Char))
    (fails : ℕ → Bool) (startIdx : ℕ) (batch : List (List Char)) :
    ∀ r ∈ batchValid docId total srcUrl fails startIdx batch, r.documentId = docId := by
  intro r hr
  unfold batchValid at hr
  obtain ⟨p, _, hif⟩ := List.mem_filterMap.mp hr
  by_cases h : fails p.1
  · simp [h] at hif
  · simp [h] at hif
    rw [← hif]
    rfl

theorem countP_enumFrom {α : Type} (g : ℕ → Bool) :
    ∀ (l : List α) (i : ℕ),
      (List.enumFrom i l).countP (fun p => g p.1) = (List.range' i l.length).countP g := by
  intro l
  induction l with
  | nil => intro i; rfl
  | cons x xs ih =>
    intro i
    simp only [List.enumFrom, List.length_cons, List.range'_succ, List.countP_cons]
    rw [ih (i + 1)]

theorem countP_enumFrom_split {α : Type} (g : ℕ × α → Bool) (l : List α) (bs startIdx : ℕ) :
    (List.enumFrom startIdx l).countP g
      = (List.enumFrom startIdx (l.take bs)).countP g
        + (List.enumFrom (startIdx + bs) (l.drop bs)).countP g := by
  by_cases hbs : bs ≤ l.length
  · conv_lhs => rw [← List.take_append_drop bs l]
    rw [List.enumFrom_append, List.countP_append, List.length_take, min_eq_left hbs]
  · rw [List.drop_eq_nil_of_le (by omega), List.take_of_length_le (by omega)]
    simp

theorem processBatchLoop_frame (docId total bs : ℕ) (srcUrl : Option (List Char))
    (fails : ℕ → Bool) :
    ∀ (fuel startIdx : ℕ) (remaining : List (List Char)) (s : State),
      (processBatchLoop docId total bs srcUrl fails fuel startIdx remaining s).documents
          = s.documents ∧
      (processBatchLoop docId total bs srcUrl fails fuel startIdx remaining s).chatMessages
          = s.chatMessages ∧
      (processBatchLoop docId total bs srcUrl fails fuel startIdx remaining s).statusLog
          = s.statusLog := by
  intro fuel
  induction fuel with
  | zero => intro startIdx remaining s; exact ⟨rfl, rfl, rfl⟩
  | succ fuel ih =>
    intro startIdx remaining s
    simp only [processBatchLoop]
    split
    · exact ih _ _ _
    · obtain ⟨h1, h2, h3⟩ := ih (startIdx + bs) (remaining.drop bs)
        (createEmbeddingsBatch
          (batchValid docId total srcUrl fails startIdx (remaining.take bs)) s)
      obtain ⟨g1, g2, g3⟩ := createEmbeddingsBatch_frame
        (batchValid docId total srcUrl fails startIdx (remaining.take bs)) s
      exact ⟨h1.trans g1, h2.trans g2, h3.trans g3⟩

theorem processBatchLoop_count (docId total bs : ℕ) (srcUrl : Option (List Char))
    (fails : ℕ → Bool) :
    ∀ (fuel startIdx : ℕ) (remaining : List (List Char)) (s : State),
      remaining.length ≤ fuel * bs →
      ((processBatchLoop docId total bs srcUrl fails fuel startIdx remaining s).embeddings.filter
          (fun r => r.documentId == docId)).length
        = (s.embeddings.filter (fun r => r.documentId == docId)).length
          + (List.enumFrom startIdx remaining).countP (fun p => !fails p.1) := by
  intro fuel
  induction fuel with
  | zero =>
    intro startIdx remaining s h
    have hnil : remaining = [] := List.length_eq_zero.mp (by omega)
    subst hnil
    simp [processBatchLoop]
  | succ fuel ih =>
    intro startIdx remaining s h
    have hrec : (remaining.drop bs).length ≤ fuel * bs := by
      rw [List.length_drop]
      have hsm : (fuel + 1) * bs = fuel * bs + bs := Nat.succ_mul fuel bs
      omega
    have hcount : ∀ s' : State,
        ((processBatchLoop docId total bs srcUrl fails fuel (startIdx + bs)
            (remaining.drop bs) s').embeddings.filter
          (fun r => r.documentId == docId)).length
          = (s'.embeddings.filter (fun r => r.documentId == docId)).length
            + (List.enumFrom (startIdx + bs) (remaining.drop bs)).countP
                (fun p => !fails p.1) :=
      fun s' => ih (startIdx + bs) (remaining.drop bs) s' hrec
    simp only [processBatchLoop]
    split
    · rename_i hempty
      rw [hcount s]
      have hlen0 : (batchValid docId total srcUrl fails startIdx (remaining.take bs)).length
          = 0 := by
        rw [List.isEmpty_iff] at hempty
        simp [hempty]
      rw [batchValid_length] at hlen0
      rw [countP_enumFrom_split (fun p => !fails p.1) remaining bs startIdx, hlen0]
      omega
    · rw [hcount]
      rw [createEmbeddingsBatch_count]
      have hvalid : (batchValid docId total srcUrl fails startIdx
          (remaining.take bs)).countP (fun e => e.documentId == docId)
          = (batchValid docId total srcUrl fails startIdx (remaining.take bs)).length := by
        rw [List.countP_eq_length]
        intro r hr
        simp [batchValid_documentId docId total srcUrl fails startIdx (remaining.take bs) r hr]
      rw [hvalid, batchValid_length,
        countP_enumFrom_split (fun p => !fails p.1) remaining bs startIdx]
      omega

theorem updateDocumentStatus_embeddings (id : ℕ) (st : String) (c : Option (List Char))
    (s : State) : (updateDocumentStatus id st c s).embeddings = s.embeddings := by
  unfold updateDocumentStatus
  split <;> rfl

theorem updateDocumentStatus_chatMessages (id : ℕ) (st : String) (c : Option (List Char))
    (s : State) : (updateDocumentStatus id st c s).chatMessages = s.chatMessages := by
  unfold updateDocumentStatus
  split <;> rfl

theorem updateDocumentStatus_not_found (id : ℕ) (st : String) (c : Option (List Char))
    {s : State} (h : s.documents.find? (fun d => d.id == id) = none) :
    updateDocumentStatus id st c s = s := by
  unfold updateDocumentStatus
  rw [h]

theorem updateDocumentStatus_statusLog_found (id : ℕ) (st : String) (c : Option (List Char))
    {s : State} (h : (s.documents.find? (fun d => d.id == id)).isSome) :
    (updateDocumentStatus id st c s).statusLog = s.statusLog ++ [(id, st)] := by
  unfold updateDocumentStatus
  cases hf : s.documents.find? (fun d => d.id == id) with
  | none => rw [hf] at h; simp at h
  | some d => rfl

theorem find?_map_id_preserving (id : ℕ) (f : Doc → Doc) (hid : ∀ d, (f d).id = d.id) :
    ∀ l : List Doc,
      (l.map (fun d => if d.id == id then f d else d)).find? (fun d => d.id == id)
        = (l.find? (fun d => d.id == id)).map f := by
  intro l
  induction l with
  | nil => rfl
  | cons d ds ih =>
    by_cases h : d.id = id
    · simp only [List.map_cons, List.find?_cons]
      rw [if_pos (by simp [h])]
      have : (f d).id == id := by simp [hid d, h]
      simp [this, h]
    · simp only [List.map_cons, List.find?_cons]
      rw [if_neg (by simp [h])]
      simp only [show (d.id == id) = false by simp [h]]
      exact ih

theorem getDocument_update_self (id : ℕ) (st : String) (c : Option (List Char)) {s : State}
    (h : (getDocument id s).isSome) :
    (getDocument id (updateDocumentStatus id st c s)).map Doc.status = some st := by
  unfold getDocument at h ⊢
  cases hf : s.documents.find? (fun d => d.id == id) with
  | none => rw [hf] at h; simp at h
  | some d =>
    simp only [updateDocumentStatus, hf]
    rw [find?_map_id_preserving id (fun d =>
      { d with
        status := st,
        content := match c with | some c2 => some c2 | none => d.content,
        processedAt := if st = "completed" then some s.nextTime else d.processedAt })
      (fun _ => rfl), hf]
    rfl

theorem getDocument_update_isSome (id : ℕ) (st : String) (c : Option (List Char)) (s : State)
    (h : (getDocument id s).isSome) :
    (getDocument id (updateDocumentStatus id st c s)).isSome := by
  have := getDocument_update_self id st c h
  cases hg : getDocument id (updateDocumentStatus id st c s) with
  | none => rw [hg] at this; simp at this
  | some d => rfl

theorem updateDocumentStatus_statusLog_cases (id : ℕ) (st : String) (c : Option (List Char))
    (s : State) :
    (updateDocumentStatus id st c s).statusLog = s.statusLog ∨
    (updateDocumentStatus id st c s).statusLog = s.statusLog ++ [(id, st)] := by
  unfold updateDocumentStatus
  cases s.documents.find? (fun d => d.id == id) with
  | none => exact Or.inl rfl
  | some d => exact Or.inr rfl

/-- The status writes `processDocumentAsync` performs: nothing (document
gone), a single `"failed"` (extraction threw), or `"processing"` (with the
extracted content) followed by `"completed"`. -/
theorem processDocumentAsync_statusLog (docId : ℕ) (extracted : Option (List Char))
    (fails : ℕ → Bool) (s : State) :
    (processDocumentAsync docId extracted fails s).statusLog = s.statusLog ∨
    (processDocumentAsync docId extracted fails s).statusLog
        = s.statusLog ++ [(docId, "failed")] ∨
    (processDocumentAsync docId extracted fails s).statusLog
        = s.statusLog ++ [(docId, "processing"), (docId, "completed")] := by
  unfold processDocumentAsync
  cases hd : getDocument docId s with
  | none => exact Or.inl rfl
  | some d =>
    cases extracted with
    | none =>
      refine Or.inr (Or.inl ?_)
      exact updateDocumentStatus_statusLog_found docId "failed" none
        (by unfold getDocument at hd; rw [hd]; rfl)
    | some text =>
      refine Or.inr (Or.inr ?_)
      have hsome : (getDocument docId s).isSome := by rw [hd]; rfl
      have h1 : (updateDocumentStatus docId "processing" (some text) s).statusLog
          = s.statusLog ++ [(docId, "processing")] :=
        updateDocumentStatus_statusLog_found docId "processing" (some text)
          (by unfold getDocument at hd; rw [hd]; rfl)
      obtain ⟨hdocs, -, hlog⟩ := processBatchLoop_frame docId (chunkText text 6000).length
        (min 100 (chunkText text 6000).length) none fails
        (((chunkText text 6000).length + min 100 (chunkText text 6000).length - 1) /
          min 100 (chunkText text 6000).length) 0 (chunkText text 6000)
        (updateDocumentStatus docId "processing" (some text) s)
      have h2 : (updateDocumentStatus docId "completed" none
          (processBatchLoop docId (chunkText text 6000).length
            (min 100 (chunkText text 6000).length) none fails
            (((chunkText text 6000).length + min 100 (chunkText text 6000).length - 1) /
              min 100 (chunkText text 6000).length) 0 (chunkText text 6000)
            (updateDocumentStatus docId "processing" (some text) s))).statusLog
          = s.statusLog ++ [(docId, "processing"), (docId, "completed")] := by
        rw [updateDocumentStatus_statusLog_found docId "completed" none
          (by
            unfold getDocument at *
            rw [hdocs]
            have := getDocument_update_isSome docId "processing" (some text) s hsome
            unfold getDocument at this
            exact this), hlog, h1, List.append_assoc]
        rfl
      exact h2

/-- The status writes `processUrlAsync` performs: nothing (document gone), a
single `"error"` (crawl threw), or a single `"completed"` (with content),
before the embedding loop, which writes no status. -/
theorem processUrlAsync_statusLog (docId : ℕ) (url : List Char)
    (extracted : Option (List Char)) (fails : ℕ → Bool) (s : State) :
    (processUrlAsync docId url extracted fails s).statusLog = s.statusLog ∨
    (processUrlAsync docId url extracted fails s).statusLog
        = s.statusLog ++ [(docId, "error")] ∨
    (processUrlAsync docId url extracted fails s).statusLog
        = s.statusLog ++ [(docId, "completed")] := by
  unfold processUrlAsync
  cases hd : getDocument docId s with
  | none => exact Or.inl rfl
  | some d =>
    cases extracted with
    | none =>
      refine Or.inr (Or.inl ?_)
      exact updateDocumentStatus_statusLog_found docId "error" none
        (by unfold getDocument at hd; rw [hd]; rfl)
    | some text =>
      refine Or.inr (Or.inr ?_)
      obtain ⟨-, -, hlog⟩ := processBatchLoop_frame docId (chunkText text 6000).length
        (min 50 (chunkText text 6000).length) (some url) fails
        (((chunkText text 6000).length + min 50 (chunkText text 6000).length - 1) /
          min 50 (chunkText text 6000).length) 0 (chunkText text 6000)
        (updateDocumentStatus docId "completed" (some text) s)
      rw [hlog]
      exact updateDocumentStatus_statusLog_found docId "completed" (some text)
        (by unfold getDocument at hd; rw [hd]; rfl)

theorem newStatusWrites_of_eq {s s' : State} (j : ℕ) (h : s'.statusLog = s.statusLog) :
    newStatusWrites s s' j = [] := by
  unfold newStatusWrites
  rw [h, List.drop_length]
  rfl

theorem newStatusWrites_append {s s' : State} (tail : List (ℕ × String)) (j : ℕ)
    (h : s'.statusLog = s.statusLog ++ tail) :
    newStatusWrites s s' j = (tail.filter (fun p => p.1 == j)).map (fun p => p.2) := by
  unfold newStatusWrites
  rw [h, List.drop_left]

theorem okStatusTrace_nil : okStatusTrace [] := Or.inl rfl

theorem okStatusTrace_filter_single (d j : ℕ) (st : String)
    (h : st = "completed" ∨ st = "failed" ∨ st = "error") :
    okStatusTrace ((([(d, st)] : List (ℕ × String)).filter (fun p => p.1 == j)).map
      (fun p => p.2)) := by
  by_cases hd : d = j
  · have hf : (([(d, st)] : List (ℕ × String)).filter (fun p => p.1 == j)) = [(d, st)] := by
      simp [hd]
    rw [hf]
    exact Or.inr ⟨[], st, rfl, by simp, h⟩
  · have hf : (([(d, st)] : List (ℕ × String)).filter (fun p => p.1 == j)) = [] := by
      simp [hd]
    rw [hf]
    exact okStatusTrace_nil

theorem okStatusTrace_filter_pair (d j : ℕ) :
    okStatusTrace ((([(d, "processing"), (d, "completed")] : List (ℕ × String)).filter
      (fun p => p.1 == j)).map (fun p => p.2)) := by
  by_cases hd : d = j
  · have hf : (([(d, "processing"), (d, "completed")] : List (ℕ × String)).filter
        (fun p => p.1 == j)) = [(d, "processing"), (d, "completed")] := by
      simp [hd]
    rw [hf]
    exact Or.inr ⟨["processing"], "completed", rfl, by simp, Or.inl rfl⟩
  · have hf : (([(d, "processing"), (d, "completed")] : List (ℕ × String)).filter
        (fun p => p.1 == j)) = [] := by
      simp [hd]
    rw [hf]
    exact okStatusTrace_nil

/-- C1. For every document, on both ingestion paths, the status only
advances from `processing` (the creation status) to `completed` or to a
terminal failure status (`failed` on the file path, `error` on the URL path)
and never regresses: in every run, whatever the oracles do, the writes to any
document are some `"processing"` writes followed by exactly one terminal
write, after which the run performs no further status transition. -/
theorem documentStatus_lifecycle (s : State) (docId j : ℕ) (supported : Bool)
    (extractedFile extractedUrl : Option (List Char)) (failsF failsU : ℕ → Bool)
    (url : List Char) :
    okStatusTrace (newStatusWrites s
        (uploadValidateAndProcess docId supported extractedFile failsF s) j) ∧
    okStatusTrace (newStatusWrites s (processUrlAsync docId url extractedUrl failsU s) j) := by
  constructor
  · unfold uploadValidateAndProcess
    by_cases hs : supported
    · rw [if_pos hs]
      rcases processDocumentAsync_statusLog docId extractedFile failsF s with h | h | h
      · rw [newStatusWrites_of_eq j h]
        exact okStatusTrace_nil
      · rw [newStatusWrites_append _ j h]
        exact okStatusTrace_filter_single docId j "failed" (Or.inr (Or.inl rfl))
      · rw [newStatusWrites_append _ j h]
        exact okStatusTrace_filter_pair docId j
    · rw [if_neg hs]
      rcases updateDocumentStatus_statusLog_cases docId "failed" none s with h | h
      · rw [newStatusWrites_of_eq j h]
        exact okStatusTrace_nil
      · rw [newStatusWrites_append _ j h]
        exact okStatusTrace_filter_single docId j "failed" (Or.inr (Or.inl rfl))
  · rcases processUrlAsync_statusLog docId url extractedUrl failsU s with h | h | h
    · rw [newStatusWrites_of_eq j h]
      exact okStatusTrace_nil
    · rw [newStatusWrites_append _ j h]
      exact okStatusTrace_filter_single docId j "error" (Or.inr (Or.inr rfl))
    · rw [newStatusWrites_append _ j h]
      exact okStatusTrace_filter_single docId j "completed" (Or.inl rfl)

/-- C9. A per-chunk vectorization failure is caught and only that chunk is
dropped: with 10 chunks and exactly one failing, the document still reaches
status `"completed"` and exactly 9 chunk-vectors are persisted for it. -/
theorem partialFailure_oneChunk (s : State) (docId : ℕ) (text : List Char) (fails : ℕ → Bool)
    (hdoc : (getDocument docId s).isSome)
    (hemb : s.embeddings.filter (fun r => r.documentId == docId) = [])
    (hchunks : (chunkText text 6000).length = 10)
    (hfails : ((List.range 10).filter (fun i => fails i)).length = 1) :
    (getDocument docId (processDocumentAsync docId (some text) fails s)).map Doc.status
        = some "completed" ∧
    ((processDocumentAsync docId (some text) fails s).embeddings.filter
        (fun r => r.documentId == docId)).length = 9 := by
  obtain ⟨d, hd⟩ := Option.isSome_iff_exists.mp hdoc
  unfold processDocumentAsync
  rw [hd]
  simp only [hchunks]
  have hmin : min 100 10 = 10 := by norm_num
  rw [hmin]
  have htb : (10 + 10 - 1) / 10 = 1 := by norm_num
  rw [htb]
  have hframe := processBatchLoop_frame docId 10 10 none fails 1 0 (chunkText text 6000)
    (updateDocumentStatus docId "processing" (some text) s)
  constructor
  · apply getDocument_update_self
    unfold getDocument
    rw [hframe.1]
    exact getDocument_update_isSome docId "processing" (some text) s hdoc
  · rw [updateDocumentStatus_embeddings]
    rw [processBatchLoop_count docId 10 10 none fails 1 0 (chunkText text 6000) _
      (by rw [hchunks])]
    rw [updateDocumentStatus_embeddings, hemb]
    have hcount : (List.enumFrom 0 (chunkText text 6000)).countP (fun p => !fails p.1)
        = (List.range 10).countP (fun i => !fails i) := by
      rw [countP_enumFrom (fun i => !fails i) (chunkText text 6000) 0, hchunks,
        ← List.range_eq_range']
    rw [hcount]
    have hsplit : (List.range 10).countP (fun i => !fails i)
        + (List.range 10).countP (fun i => fails i) = 10 := by
      simpa using countP_not_add (fun i => fails i) (List.range 10)
    have hone : (List.range 10).countP (fun i => fails i) = 1 := by
      rw [List.countP_eq_length_filter]
      exact hfails
    simp only [List.length_nil]
    omega

theorem ws_a : ('a').isWhitespace = false := by decide

theorem ws_space : (' ').isWhitespace = true := by decide

theorem ws_dot : ('.').isWhitespace = false := by decide

theorem splitOnTerm_noTerm_append (r : List Char) :
    ∀ u : List Char, (∀ c ∈ u, isTerm c = false) →
      splitOnTerm (u ++ '.' :: r) = u :: splitOnTerm r := by
  intro u
  induction u with
  | nil =>
    intro _
    show splitOnTerm ('.' :: r) = [] :: splitOnTerm r
    simp [splitOnTerm, isTerm]
  | cons c u ih =>
    intro hu
    have hc : isTerm c = false := hu c (List.mem_cons_self _ _)
    have ih2 := ih (fun x hx => hu x (List.mem_cons_of_mem c hx))
    show splitOnTerm (c :: (u ++ '.' :: r)) = (c :: u) :: splitOnTerm r
    simp only [splitOnTerm, hc, Bool.false_eq_true, if_false, ih2]

theorem splitOnTerm_tenText (n : ℕ) :
    splitOnTerm (List.replicate n (aSentence ++ ['.'])).flatten
      = List.replicate n aSentence ++ [[]] := by
  induction n with
  | zero => rfl
  | succ n ih =>
    rw [List.replicate_succ, List.flatten_cons]
    have hassoc : (aSentence ++ ['.']) ++ (List.replicate n (aSentence ++ ['.'])).flatten
        = aSentence ++ '.' :: (List.replicate n (aSentence ++ ['.'])).flatten := by
      rw [List.append_assoc, List.singleton_append]
    rw [hassoc, splitOnTerm_noTerm_append _ aSentence
      (fun c hc => by rw [List.eq_of_mem_replicate hc]; rfl), ih, List.replicate_succ,
      List.cons_append]

theorem sentencesOf_tenText : sentencesOf tenSentenceText = List.replicate 10 aSentence := by
  unfold sentencesOf tenSentenceText
  rw [splitOnTerm_tenText 10, List.filter_append]
  have h1 : (List.replicate 10 aSentence).filter (fun s => s.any (fun c => !c.isWhitespace))
      = List.replicate 10 aSentence := by
    rw [List.filter_eq_self]
    intro a ha
    rw [List.eq_of_mem_replicate ha]
    rw [List.any_eq_true]
    exact ⟨'a', List.mem_replicate.mpr ⟨by norm_num, rfl⟩, by decide⟩
  have h2 : ([([] : List Char)]).filter (fun s => s.any (fun c => !c.isWhitespace)) = [] := rfl
  rw [h1, h2, List.append_nil]

theorem aSentence_cons : aSentence = 'a' :: List.replicate 2998 'a' := rfl

theorem aSentence_length : aSentence.length = 2999 := by
  rw [show aSentence = List.replicate 2999 'a' from rfl, List.length_replicate]

theorem trimChars_aSentence : trimChars (aSentence ++ ['.', ' ']) = aSentence ++ ['.'] := by
  unfold trimChars
  have hd1 : (aSentence ++ ['.', ' ']).dropWhile Char.isWhitespace
      = aSentence ++ ['.', ' '] := by
    rw [aSentence_cons, List.cons_append, List.dropWhile_cons, ws_a,
      if_neg Bool.false_ne_true]
  rw [hd1]
  have hrev : (aSentence ++ ['.', ' ']).reverse = ' ' :: '.' :: aSentence.reverse := by
    rw [List.reverse_append, show (['.', ' '] : List Char).reverse = [' ', '.'] from by decide]
    simp only [List.cons_append, List.nil_append]
  rw [hrev]
  have hd2 : (' ' :: '.' :: aSentence.reverse).dropWhile Char.isWhitespace
      = '.' :: aSentence.reverse := by
    rw [List.dropWhile_cons, ws_space, if_pos rfl, List.dropWhile_cons, ws_dot,
      if_neg Bool.false_ne_true]
  rw [hd2, List.reverse_cons, List.reverse_reverse]

theorem chunkLoop_aSentence_len (n : ℕ) :
    (chunkLoop 6000 (aSentence ++ ['.', ' ']) (List.replicate n aSentence)).length
      = n + 1 := by
  induction n with
  | zero =>
    show (chunkLoop 6000 (aSentence ++ ['.', ' ']) []).length = 1
    simp only [chunkLoop]
    rw [trimChars_aSentence,
      if_pos (by rw [List.length_append, aSentence_length]; norm_num)]
    rfl
  | succ n ih =>
    rw [List.replicate_succ]
    show (chunkLoop 6000 (aSentence ++ ['.', ' '])
      (aSentence :: List.replicate n aSentence)).length = n + 1 + 1
    simp only [chunkLoop]
    rw [if_pos ⟨by
        simp only [List.length_append, aSentence_length, List.length_cons, List.length_nil]
        norm_num,
      by rw [List.length_append, aSentence_length]; norm_num⟩]
    rw [List.length_cons, ih]

theorem chunkText_tenText_length : (chunkText tenSentenceText 6000).length = 10 := by
  unfold chunkText
  rw [sentencesOf_tenText]
  have h0 : chunkLoop 6000 [] (List.replicate 10 aSentence)
      = chunkLoop 6000 (aSentence ++ ['.', ' ']) (List.replicate 9 aSentence) := by
    rw [show (10 : ℕ) = 9 + 1 from rfl, List.replicate_succ]
    show chunkLoop 6000 [] (aSentence :: List.replicate 9 aSentence) = _
    simp only [chunkLoop]
    rw [if_neg (by simp), List.nil_append]
  rw [h0]
  rw [if_pos (by rw [chunkLoop_aSentence_len 9]; norm_num), chunkLoop_aSentence_len 9]

/-- Witness for the partial-failure property: one freshly created document,
a ten-sentence text chunked into exactly 10 chunks, and an oracle failing
exactly chunk 0. -/
theorem partialFailure_oneChunk_witness :
    (getDocument 0 (processDocumentAsync 0 (some tenSentenceText) (fun i => i == 0)
        oneDocState)).map Doc.status = some "completed" ∧
    ((processDocumentAsync 0 (some tenSentenceText) (fun i => i == 0)
        oneDocState).embeddings.filter (fun r => r.documentId == 0)).length = 9 :=
  partialFailure_oneChunk oneDocState 0 tenSentenceText (fun i => i == 0)
    (by rfl) (by rfl) chunkText_tenText_length (by decide)

/-- C4 (amended). `generateEmbedding` always returns, for any text including
the empty one, exactly 1536 components, each strictly between -1 and 1. (The
claimed `[0, 1)` range fails: the 32-bit hash can be negative, and JS `%`
keeps the dividend's sign.) -/
theorem generateEmbedding_shape (text : List ℤ) :
    (generateEmbedding text).length = 1536 ∧
      ∀ q ∈ generateEmbedding text, -1 < q ∧ q < 1 := by
  refine ⟨generateEmbedding_length text, ?_⟩
  intro q hq
  obtain ⟨i, -, rfl⟩ := List.mem_map.mp hq
  exact embedComponent_bounds text i

/-- C4 counterexample: component 0 of the embedding of `"hello"` is
`-266/1000`, outside the claimed `[0, 1)`. -/
theorem generateEmbedding_negative_component :
    ∃ q ∈ generateEmbedding helloCodes, ¬(0 ≤ q ∧ q < 1) := by
  refine ⟨embedComponent helloCodes 0, ?_, ?_⟩
  · show embedComponent helloCodes 0 ∈ (List.range 1536).map (embedComponent helloCodes)
    exact List.mem_map.mpr ⟨0, List.mem_range.mpr (by norm_num), rfl⟩
  · have h : jsRem (jsHash (helloCodes ++ reprCodes 0)) 1000 = -266 := by
      set_option maxRecDepth 4000 in decide
    intro hcon
    have hneg : embedComponent helloCodes 0 < 0 := by
      unfold embedComponent
      rw [h]
      norm_num
    exact absurd hcon.1 (not_le.mpr hneg)

/-- C5. For equal-length vectors the code's similarity is exactly the
specification's clamped cosine (`0` when either Euclidean norm is zero,
otherwise the cosine clamped to `[0, 1]`), and the self-similarity of any
vector with a nonzero component is exactly `1`. -/
theorem cosineSimilarity_spec (a b v : List ℝ) (hab : a.length = b.length)
    (hv : ∃ x ∈ v, x ≠ 0) :
    cosineSimilarity a b = some (clampedCosineSpec a b) ∧
      cosineSimilarity v v = some 1 :=
  ⟨cosineSimilarity_eq_spec hab, cosineSimilarity_self hv⟩

theorem cosineSimilarity_spec_witness :
    cosineSimilarity [1, 2] [3, 4] = some (clampedCosineSpec [1, 2] [3, 4]) ∧
      cosineSimilarity [(1 : ℝ)] [1] = some 1 :=
  cosineSimilarity_spec [1, 2] [3, 4] [1] (by simp)
    ⟨1, List.mem_singleton.mpr rfl, one_ne_zero⟩

/-- C6 (amended). Every chunk is within `maxSize`, except that a chunk may
consist of a single sentence kept intact (never split mid-sentence) with its
re-appended `". "` terminator, trimmed; such a chunk is at most one character
longer than the sentence (the trim drops the trailing space), so an oversized
chunk can only come from a sentence of length at least `maxSize` — in
particular a sentence of length exactly `maxSize`, which does not itself
exceed the bound, can still produce a chunk of `maxSize + 1` characters. -/
theorem chunkText_oversize_policy (text : List Char) (maxSize : ℕ) (chunk : List Char)
    (hchunk : chunk ∈ chunkText text maxSize) :
    chunk.length ≤ maxSize ∨
      ∃ s ∈ sentencesOf text,
        chunk = trimChars (s ++ ['.', ' ']) ∧ chunk.length ≤ s.length + 1 ∧
          maxSize ≤ s.length :=
  chunkText_bound text maxSize chunk hchunk

theorem chunkText_oversize_policy_witness :
    (['h', 'i', '.'] : List Char).length ≤ 6000 ∨
      ∃ s ∈ sentencesOf ['h', 'i'],
        (['h', 'i', '.'] : List Char) = trimChars (s ++ ['.', ' ']) ∧
          (['h', 'i', '.'] : List Char).length ≤ s.length + 1 ∧ 6000 ≤ s.length :=
  chunkText_oversize_policy ['h', 'i'] 6000 ['h', 'i', '.'] (by decide)

/-- C6 counterexample: with `maxSize = 5` the text `"abcde"` — whose only
sentence has length 5, not exceeding `maxSize` — yields the single chunk
`"abcde."` of length 6 > 5: a chunk can exceed the bound even though no
single sentence of the input does. -/
theorem chunkText_oversize_cex :
    ∃ chunk ∈ chunkText ['a', 'b', 'c', 'd', 'e'] 5,
      5 < chunk.length ∧ ∀ s ∈ sentencesOf ['a', 'b', 'c', 'd', 'e'], s.length ≤ 5 := by
  decide

/-- C7. `chunkText` never returns the empty list: when the accumulation loop
emits no chunk it returns exactly one fallback chunk, the input truncated to
`maxChunkSize`; in particular the empty text yields exactly one chunk. -/
theorem chunkText_always_nonempty (text : List Char) (maxSize : ℕ) :
    chunkText text maxSize ≠ [] ∧
      (chunkLoop maxSize [] (sentencesOf text) = [] →
        chunkText text maxSize = [text.take maxSize]) ∧
      (chunkText [] maxSize).length = 1 :=
  chunkText_nonempty text maxSize

/-- C2 counterexample: against the query `[1]`, a candidate list holding one
dimension-mismatched candidate and one well-formed candidate produces no
ranking at all — the mismatch aborts the whole call, rather than only
excluding the bad candidate. -/
theorem findSimilarChunks_mismatch_aborts_all :
    findSimilarChunks [(1 : ℝ)] [mismatchChunk, okChunk] 5 = none := by
  have h : scoreChunk [(1 : ℝ)] mismatchChunk = none :=
    (scoreChunk_none_iff _ _).mpr (by simp [mismatchChunk])
  unfold findSimilarChunks
  rw [mapThrow_eq_none_of_mem (List.mem_cons_self _ _) h]
  rfl

/-- C2 (amended). A dimensionality mismatch in any candidate is fatal to the
whole ranking: the exception of the one pairwise comparison propagates out of
`findSimilarChunks`, so the call returns no results (the route's `catch`
turns it into an error response); ranking completes exactly when every
candidate matches the query's length. -/
theorem findSimilarChunks_mismatch_fatal (q : List ℝ) (chunks : List EmbChunk) (k : ℕ) :
    ((∃ c ∈ chunks, c.embedding.length ≠ q.length) →
      findSimilarChunks q chunks k = none) ∧
    ((∀ c ∈ chunks, c.embedding.length = q.length) →
      ∃ rs, findSimilarChunks q chunks k = some rs) := by
  constructor
  · rintro ⟨c, hc, hlen⟩
    unfold findSimilarChunks
    rw [mapThrow_eq_none_of_mem hc ((scoreChunk_none_iff q c).mpr hlen)]
    rfl
  · intro h
    obtain ⟨ys, hys⟩ := mapThrow_isSome
      (fun c hc hn => ((scoreChunk_none_iff q c).mp hn) (h c hc))
    exact ⟨(List.insertionSort simGE ys).take k, by
      unfold findSimilarChunks
      rw [hys]
      rfl⟩

theorem findSimilarChunks_mismatch_fatal_witness :
    ((∃ c ∈ [mismatchChunk, okChunk], c.embedding.length ≠ ([(1 : ℝ)]).length) →
      findSimilarChunks [(1 : ℝ)] [mismatchChunk, okChunk] 5 = none) ∧
    ((∀ c ∈ [mismatchChunk, okChunk], c.embedding.length = ([(1 : ℝ)]).length) →
      ∃ rs, findSimilarChunks [(1 : ℝ)] [mismatchChunk, okChunk] 5 = some rs) :=
  findSimilarChunks_mismatch_fatal [(1 : ℝ)] [mismatchChunk, okChunk] 5

/-- C8. When every candidate matches the query's length, the ranking returns
at most `k` results, sorted by non-increasing similarity, and entries of any
fixed similarity appear in their original candidate order (the output's
fixed-similarity subsequence is a prefix of the scored input's — the sort is
stable, ties keep candidate order). -/
theorem findSimilarChunks_ranking (q : List ℝ) (chunks : List EmbChunk) (k : ℕ)
    (h : ∀ c ∈ chunks, c.embedding.length = q.length) :
    ∃ sc rs, mapThrow (scoreChunk q) chunks = some sc ∧
      findSimilarChunks q chunks k = some rs ∧
      rs.length ≤ k ∧
      (rs.map (fun r => r.similarity)).Sorted (fun x y => y ≤ x) ∧
      ∀ v : ℝ, rs.filter (fun r => decide (r.similarity = v)) <+:
        sc.filter (fun r => decide (r.similarity = v)) := by
  obtain ⟨sc, hsc⟩ := mapThrow_isSome
    (fun c hc hn => ((scoreChunk_none_iff q c).mp hn) (h c hc))
  refine ⟨sc, (List.insertionSort simGE sc).take k, hsc, ?_, List.length_take_le _ _,
    ?_, ?_⟩
  · unfold findSimilarChunks
    rw [hsc]
    rfl
  · have hs : (List.insertionSort simGE sc).Sorted simGE :=
      List.sorted_insertionSort simGE sc
    have hs2 := List.Pairwise.sublist (List.take_sublist k _) hs
    exact List.Pairwise.map _ (fun a b hab => hab) hs2
  · intro v
    have hpre := List.IsPrefix.filter (fun r => decide (r.similarity = v))
      (List.take_prefix k (List.insertionSort simGE sc))
    rw [filter_insertionSort] at hpre
    exact hpre

theorem findSimilarChunks_ranking_witness :
    ∃ sc rs, mapThrow (scoreChunk [(1 : ℝ)]) [okChunk, zeroChunk] = some sc ∧
      findSimilarChunks [(1 : ℝ)] [okChunk, zeroChunk] 5 = some rs ∧
      rs.length ≤ 5 ∧
      (rs.map (fun r => r.similarity)).Sorted (fun x y => y ≤ x) ∧
      ∀ v : ℝ, rs.filter (fun r => decide (r.similarity = v)) <+:
        sc.filter (fun r => decide (r.similarity = v)) :=
  findSimilarChunks_ranking [(1 : ℝ)] [okChunk, zeroChunk] 5
    (by intro c hc; fin_cases hc <;> rfl)

/-- C10. `getAllChatMessages` is not read-only: when the document store is
empty it clears the whole chat history as a side effect and returns `[]` —
and the history stays empty even if a document is created afterwards; when at
least one document exists, the store (in particular the message store) is
left entirely unchanged. -/
theorem getAllChatMessages_effect (s : State) (d : InsertDoc) :
    (s.documents = [] →
      (getAllChatMessages s).1.chatMessages = [] ∧ (getAllChatMessages s).2 = [] ∧
        ((createDocument d (getAllChatMessages s).1).1).chatMessages = []) ∧
    (s.documents ≠ [] → (getAllChatMessages s).1 = s) := by
  constructor
  · intro h
    have hemp : s.documents.isEmpty = true := by rw [h]; rfl
    unfold getAllChatMessages
    rw [if_pos hemp]
    exact ⟨rfl, rfl, rfl⟩
  · intro h
    have hemp : s.documents.isEmpty = false := by
      cases hd : s.documents with
      | nil => exact absurd hd h
      | cons a l => rfl
    unfold getAllChatMessages
    rw [if_neg (by rw [hemp]; exact Bool.false_ne_true)]

theorem createChatMessage_counts (c : List Char) (role : String)
    (src : Option (List SourceRef)) (s1 : State) (q : String) :
    (((createChatMessage c role src s1).1).chatMessages.filter
        (fun m => m.role == q)).length
      = (s1.chatMessages.filter (fun m => m.role == q)).length
        + (if role == q then 1 else 0) := by
  show ((s1.chatMessages ++ [_]).filter _).length = _
  rw [List.filter_append, List.length_append]
  by_cases h : role == q
  · simp [List.filter, h]
  · simp only [List.filter, h]
    simp [h]

/-- What each outcome of the handler leaves in the message store. -/
theorem handleChatMessage_atomicity (s : State) (content : List Char)
    (hdocs : s.documents ≠ []) :
    handleChatMessage none s = (s, none) ∧
    ((handleChatMessage (some content) s).1.chatMessages.filter
        (fun m => m.role == "user")).length
      = (s.chatMessages.filter (fun m => m.role == "user")).length + 1 ∧
    ((handleChatMessage (some content) s).2 = none →
      ((handleChatMessage (some content) s).1.chatMessages.filter
          (fun m => m.role == "assistant")).length
        = (s.chatMessages.filter (fun m => m.role == "assistant")).length) ∧
    ((handleChatMessage (some content) s).2 ≠ none →
      ((handleChatMessage (some content) s).1.chatMessages.filter
          (fun m => m.role == "assistant")).length
        = (s.chatMessages.filter (fun m => m.role == "assistant")).length + 1) := by
  have hemp : ((createChatMessage content "user" none s).1).documents.isEmpty = false := by
    show s.documents.isEmpty = false
    cases hd : s.documents with
    | nil => exact absurd hd hdocs
    | cons x l => rfl
  have hgm : getAllChatMessages (createChatMessage content "user" none s).1
      = ((createChatMessage content "user" none s).1,
        (sortMsgsByTime ((createChatMessage content "user" none s).1).chatMessages).drop
          ((sortMsgsByTime ((createChatMessage content "user" none s).1).chatMessages).length
            - 12)) := by
    unfold getAllChatMessages
    rw [if_neg (by rw [hemp]; exact Bool.false_ne_true)]
  refine ⟨rfl, ?_⟩
  simp only [handleChatMessage, hgm]
  split
  · refine ⟨?_, ?_, ?_⟩
    · show (((createChatMessage content "user" none s).1).chatMessages.filter
          (fun m => m.role == "user")).length = _
      rw [createChatMessage_counts]
      simp
    · intro _
      show (((createChatMessage content "user" none s).1).chatMessages.filter
          (fun m => m.role == "assistant")).length = _
      rw [createChatMessage_counts]
      simp
    · intro hne
      exact absurd rfl hne
  · refine ⟨?_, ?_, ?_⟩
    · show ((((createChatMessage _ "assistant" _
          (createChatMessage content "user" none s).1).1).chatMessages).filter
          (fun m => m.role == "user")).length = _
      rw [createChatMessage_counts, createChatMessage_counts]
      simp
    · intro hno
      exact absurd hno (Option.some_ne_none _)
    · intro _
      show ((((createChatMessage _ "assistant" _
          (createChatMessage content "user" none s).1).1).chatMessages).filter
          (fun m => m.role == "assistant")).length = _
      rw [createChatMessage_counts, createChatMessage_counts]
      simp

theorem handleChatMessage_none_of_badEmbedding (s : State) (content : List Char)
    (hdocs : s.documents ≠ []) (hbad : ∃ e ∈ s.embeddings, e.embedding.length ≠ 1536) :
    (handleChatMessage (some content) s).2 = none := by
  have hemp : ((createChatMessage content "user" none s).1).documents.isEmpty = false := by
    show s.documents.isEmpty = false
    cases hd : s.documents with
    | nil => exact absurd hd hdocs
    | cons x l => rfl
  have hgm : getAllChatMessages (createChatMessage content "user" none s).1
      = ((createChatMessage content "user" none s).1,
        (sortMsgsByTime ((createChatMessage content "user" none s).1).chatMessages).drop
          ((sortMsgsByTime ((createChatMessage content "user" none s).1).chatMessages).length
            - 12)) := by
    unfold getAllChatMessages
    rw [if_neg (by rw [hemp]; exact Bool.false_ne_true)]
  obtain ⟨e, he, hlen⟩ := hbad
  have hfs : findSimilarChunks
      ((generateEmbedding (content.map (fun c => (c.toNat : ℤ)))).map (fun (q : ℚ) => (q : ℝ)))
      ((getAllEmbeddings (createChatMessage content "user" none s).1).map
        (fun e => ({ id := e.id, embedding := e.embedding, content := e.content,
                     documentId := e.documentId, metadata := e.metadata } : EmbChunk))) 5
      = none := by
    have he2 : e ∈ getAllEmbeddings (createChatMessage content "user" none s).1 := he
    unfold findSimilarChunks
    rw [mapThrow_eq_none_of_mem
      (List.mem_map.mpr ⟨e, he2, rfl⟩)
      ((scoreChunk_none_iff _ _).mpr (by
        show e.embedding.length ≠ _
        rw [List.length_map, generateEmbedding_length]
        exact hlen))]
    rfl
  simp only [handleChatMessage, hgm]
  rw [hfs]

/-- C3 (amended). Chat persistence is atomic only up to the user-message
write: a parse failure (before the user write) stores neither message, but
any later failure — e.g. the ranking aborting on a dimension-mismatched
stored embedding — leaves the user message stored with no assistant message
(the error surfaces as an error response); on success both messages are
stored. Stated for a store with at least one document (with zero documents
the history-read even clears the chat history, deleting the just-written
user message). -/
theorem chatMessagePairPersistence (s : State) (content : List Char)
    (hdocs : s.documents ≠ []) :
    handleChatMessage none s = (s, none) ∧
    ((handleChatMessage (some content) s).1.chatMessages.filter
        (fun m => m.role == "user")).length
      = (s.chatMessages.filter (fun m => m.role == "user")).length + 1 ∧
    ((handleChatMessage (some content) s).2 = none →
      ((handleChatMessage (some content) s).1.chatMessages.filter
          (fun m => m.role == "assistant")).length
        = (s.chatMessages.filter (fun m => m.role == "assistant")).length) ∧
    ((handleChatMessage (some content) s).2 ≠ none →
      ((handleChatMessage (some content) s).1.chatMessages.filter
          (fun m => m.role == "assistant")).length
        = (s.chatMessages.filter (fun m => m.role == "assistant")).length + 1) :=
  handleChatMessage_atomicity s content hdocs

theorem chatMessagePairPersistence_witness :
    handleChatMessage none cexChatState = (cexChatState, none) ∧
    ((handleChatMessage (some ['h', 'i']) cexChatState).1.chatMessages.filter
        (fun m => m.role == "user")).length
      = (cexChatState.chatMessages.filter (fun m => m.role == "user")).length + 1 ∧
    ((handleChatMessage (some ['h', 'i']) cexChatState).2 = none →
      ((handleChatMessage (some ['h', 'i']) cexChatState).1.chatMessages.filter
          (fun m => m.role == "assistant")).length
        = (cexChatState.chatMessages.filter (fun m => m.role == "assistant")).length) ∧
    ((handleChatMessage (some ['h', 'i']) cexChatState).2 ≠ none →
      ((handleChatMessage (some ['h', 'i']) cexChatState).1.chatMessages.filter
          (fun m => m.role == "assistant")).length
        = (cexChatState.chatMessages.filter (fun m => m.role == "assistant")).length + 1) :=
  chatMessagePairPersistence cexChatState ['h', 'i'] (by simp [cexChatState])

/-- C3 counterexample: on a store with one document and one stored embedding
of mismatched dimension, the chat handler fails (error response) after
persisting the user message: afterwards exactly one user message and no
assistant message exist — a half-written pair. -/
theorem chatHalfPair_cex :
    (handleChatMessage (some ['h', 'i']) cexChatState).2 = none ∧
    ((handleChatMessage (some ['h', 'i']) cexChatState).1.chatMessages.filter
        (fun m => m.role == "user")).length = 1 ∧
    ((handleChatMessage (some ['h', 'i']) cexChatState).1.chatMessages.filter
        (fun m => m.role == "assistant")).length = 0 := by
  have hdocs : cexChatState.documents ≠ [] := by simp [cexChatState]
  have hnone := handleChatMessage_none_of_badEmbedding cexChatState ['h', 'i'] hdocs
    ⟨badEmbRec, by simp [cexChatState], by simp [badEmbRec]⟩
  obtain ⟨-, huser, hnoneCase, -⟩ := handleChatMessage_atomicity cexChatState ['h', 'i'] hdocs
  exact ⟨hnone, by rw [huser]; rfl, by rw [hnoneCase hnone]; rfl⟩
